import Mathlib

/-!
Shallow embedding of the pixel-art canvas core of ap-drawing (src/main.rs),
together with theorems settling the frozen claims about its specification.

Floating-point values in the source (`f32`) are modelled as exact rationals:
every float expression the embedded code performs stays well inside the range
where `f32` arithmetic on the program's integer-valued operands is exact
(grid and brush sizes are capped at 64 by the settings sliders).
-/

namespace ApDrawing

/-- Colour with three 8-bit channels (`Rgb8` in the source; the channel type is
modelled as `ℕ`, only equality of colours matters to the core). -/
structure Rgb8 where
  red : ℕ
  green : ℕ
  blue : ℕ
deriving DecidableEq

/-- The `BLACK` constant of nannou, the default pixel colour (main.rs line 39). -/
def BLACK : Rgb8 := ⟨0, 0, 0⟩

/-- The `WHITE` constant of nannou, the default primary colour (main.rs line 97). -/
def WHITE : Rgb8 := ⟨255, 255, 255⟩

/-- A grid cell: colour plus stored world position (main.rs lines 29-34). -/
structure Pixel where
  color : Rgb8
  x : ℚ
  y : ℚ
deriving DecidableEq

/-- `Pixel::default()` (main.rs lines 36-44): black, at the origin. -/
def Pixel.def : Pixel := ⟨BLACK, 0, 0⟩

/-- The pixel store `Vec<Vec<Pixel>>`: outer index is the column x,
inner index is the row y (main.rs line 47). -/
abbrev Grid := List (List Pixel)

/-- The two brush kinds (main.rs lines 24-27). -/
inductive Brush where
  | Circle : Brush
  | Square : Brush
deriving DecidableEq

/-- In-place update of one list entry, the effect of `v[i] = ...` /
`v[i].field = ...` on a `Vec` (out-of-range indices are proved unreachable
for every paint step, see the bounds theorems below). -/
def updateAt {α : Type} : List α → ℕ → (α → α) → List α
  | [], _, _ => []
  | a :: as, 0, f => f a :: as
  | a :: as, n + 1, f => a :: updateAt as n f

/-- `pixels[x][y].color = c` (main.rs lines 212 and 218-223). -/
def setPixelColor (g : Grid) (x y : ℕ) (c : Rgb8) : Grid :=
  updateAt g x (fun row => updateAt row y (fun p => { p with color := c }))

/-- Read `pixels[x][y]` (total, with a default for out-of-range reads). -/
def getPixel (g : Grid) (x y : ℕ) : Pixel :=
  (g.getD x []).getD y Pixel.def

/-- Painting a list of cells one after another, the shape shared by both
brush loops: each visited cell's colour is overwritten with `c`. -/
def paintPoints (g : Grid) (pts : List (ℕ × ℕ)) (c : Rgb8) : Grid :=
  pts.foldl (fun g' pt => setPixelColor g' pt.1 pt.2 c) g

theorem updateAt_length {α : Type} (l : List α) (i : ℕ) (f : α → α) :
    (updateAt l i f).length = l.length := by
  induction l generalizing i with
  | nil => rfl
  | cons a as ih =>
    cases i with
    | zero => rfl
    | succ n => simp [updateAt, ih]

theorem getD_updateAt {α : Type} (l : List α) (i j : ℕ) (f : α → α) (d : α) :
    (updateAt l i f).getD j d =
      if i = j ∧ j < l.length then f (l.getD j d) else l.getD j d := by
  induction l generalizing i j with
  | nil => simp [updateAt]
  | cons a as ih =>
    cases i with
    | zero =>
      cases j with
      | zero => simp [updateAt]
      | succ m => simp [updateAt]
    | succ n =>
      cases j with
      | zero => simp [updateAt]
      | succ m =>
        simp only [updateAt, List.getD_cons_succ, ih, List.length_cons]
        by_cases h : n = m ∧ m < as.length
        · rw [if_pos h, if_pos ⟨by omega, by omega⟩]
        · rw [if_neg h, if_neg (by omega)]

theorem setPixelColor_length (g : Grid) (x y : ℕ) (c : Rgb8) :
    (setPixelColor g x y c).length = g.length :=
  updateAt_length g x _

theorem setPixelColor_row_length (g : Grid) (x y i : ℕ) (c : Rgb8) :
    ((setPixelColor g x y c).getD i []).length = (g.getD i []).length := by
  rw [setPixelColor, getD_updateAt]
  by_cases h : x = i ∧ i < g.length
  · rw [if_pos h, updateAt_length]
  · rw [if_neg h]

theorem getPixel_setPixelColor (g : Grid) (x y x' y' : ℕ) (c : Rgb8) :
    getPixel (setPixelColor g x y c) x' y' =
      if x' = x ∧ x' < g.length ∧ y' = y ∧ y' < (g.getD x' []).length
      then { getPixel g x' y' with color := c }
      else getPixel g x' y' := by
  rw [getPixel, setPixelColor, getD_updateAt]
  by_cases hx : x = x' ∧ x' < g.length
  · rw [if_pos hx, getD_updateAt]
    by_cases hy : y = y' ∧ y' < (g.getD x' []).length
    · rw [if_pos hy, if_pos ⟨hx.1.symm, hx.2, hy.1.symm, hy.2⟩]
      rfl
    · rw [if_neg hy, if_neg (by tauto)]
      rfl
  · rw [if_neg hx, if_neg (by tauto)]
    rfl

theorem paintPoints_length (g : Grid) (pts : List (ℕ × ℕ)) (c : Rgb8) :
    (paintPoints g pts c).length = g.length := by
  induction pts generalizing g with
  | nil => rfl
  | cons p ps ih =>
    rw [paintPoints, List.foldl_cons, ← paintPoints, ih, setPixelColor_length]

theorem paintPoints_row_length (g : Grid) (pts : List (ℕ × ℕ)) (c : Rgb8) (i : ℕ) :
    ((paintPoints g pts c).getD i []).length = (g.getD i []).length := by
  induction pts generalizing g with
  | nil => rfl
  | cons p ps ih =>
    rw [paintPoints, List.foldl_cons, ← paintPoints, ih, setPixelColor_row_length]

theorem getPixel_paintPoints (pts : List (ℕ × ℕ)) (g : Grid) (c : Rgb8) (x y : ℕ) :
    getPixel (paintPoints g pts c) x y =
      if (x, y) ∈ pts ∧ x < g.length ∧ y < (g.getD x []).length
      then { getPixel g x y with color := c }
      else getPixel g x y := by
  induction pts generalizing g with
  | nil => simp [paintPoints]
  | cons p ps ih =>
    obtain ⟨a, b⟩ := p
    rw [paintPoints, List.foldl_cons, ← paintPoints, ih,
      setPixelColor_length, setPixelColor_row_length, getPixel_setPixelColor]
    simp only [List.mem_cons, Prod.mk.injEq]
    split_ifs <;> first
      | rfl
      | (exfalso; tauto)

theorem getPixel_paintPoints_pos (pts : List (ℕ × ℕ)) (g : Grid) (c : Rgb8) (x y : ℕ) :
    (getPixel (paintPoints g pts c) x y).x = (getPixel g x y).x ∧
    (getPixel (paintPoints g pts c) x y).y = (getPixel g x y).y := by
  rw [getPixel_paintPoints]
  by_cases h : (x, y) ∈ pts ∧ x < g.length ∧ y < (g.getD x []).length
  · rw [if_pos h]
    exact ⟨rfl, rfl⟩
  · rw [if_neg h]
    exact ⟨rfl, rfl⟩

/-! ## Brush algorithms (main.rs lines 197-226 and 420-438) -/

/-- Lower x (or y) bound of the square-brush loop (main.rs lines 199-201):
the Rust expression is the f32 computation
`(pos - brush_size as f32 / 2.0).ceil().clamp(0.0, f32::MAX) as usize`.
The centre `c` is always integer-valued (floor of a float plus an integer),
so it is carried as `ℤ`; the clamp's upper end `f32::MAX` is never reached
by the in-range values and is dropped from the exact model. -/
def sqLo (c : ℤ) (s : ℕ) : ℕ :=
  (max (⌈(c : ℚ) - (s : ℚ) / 2⌉) 0).toNat

/-- Upper (exclusive) x (or y) bound of the square-brush loop (main.rs
lines 202-203): `(pos + (brush_size as f32 / 2.0).ceil()).clamp(0.0, grid_size as f32) as usize`.
Note the ceiling is applied to `brush_size / 2` alone before the addition. -/
def sqHi (c : ℤ) (s n : ℕ) : ℕ :=
  (min (max (c + ⌈(s : ℚ) / 2⌉) 0) (n : ℤ)).toNat

/-- The nested square-brush paint loop (main.rs lines 198-215):
`for x in lo_x..hi_x { for y in lo_y..hi_y { pixels[x][y].color = color } }`. -/
def paintSquare (g : Grid) (cx cy : ℤ) (s n : ℕ) (c : Rgb8) : Grid :=
  (List.range' (sqLo cx s) (sqHi cx s n - sqLo cx s)).foldl
    (fun g' x =>
      (List.range' (sqLo cy s) (sqHi cy s n - sqLo cy s)).foldl
        (fun g'' y => setPixelColor g'' x y c) g')
    g

/-- Inclusive integer range `lo..=hi` of Rust. -/
def rangeIncl (lo hi : ℤ) : List ℤ :=
  (List.range (hi + 1 - lo).toNat).map (fun i : ℕ => lo + (i : ℤ))

/-- `calc_circle_pixels` (main.rs lines 422-438): enumerate all lattice points
`(x, y)` with `x, y ∈ -radius..=radius` whose squared distance is at most the
squared untruncated radius `diameter / 2.0`.  The `as i32` cast of the
nonnegative float radius truncates, i.e. takes the floor.  The nested loops
with a conditional push produce exactly this flatMap/filter list, in the same
order. -/
def insideCircle (r : ℚ) (x y : ℤ) : Bool :=
  decide ((x : ℚ) * (x : ℚ) + (y : ℚ) * (y : ℚ) ≤ r * r)

def calc_circle_pixels (diameter : ℕ) : List (ℤ × ℤ) :=
  let radius_f32 : ℚ := (diameter : ℚ) / 2
  let radius : ℤ := ⌊radius_f32⌋
  (rangeIncl (-radius) radius).flatMap (fun x =>
    ((rangeIncl (-radius) radius).filter (fun y =>
      insideCircle radius_f32 x y)).map (fun y => (x, y)))

/-- `v.clamp(0, grid_size as i32 - 1) as usize` (main.rs lines 218-222). -/
def clampIdx (n : ℕ) (v : ℤ) : ℕ :=
  (min (max v 0) ((n : ℤ) - 1)).toNat

/-- The circle-brush paint loop (main.rs lines 216-225): for each offset,
paint the cell at the centre plus the offset, each axis clamped into range. -/
def paintCircle (g : Grid) (cx cy : ℤ) (s n : ℕ) (c : Rgb8) : Grid :=
  (calc_circle_pixels s).foldl
    (fun g' off =>
      setPixelColor g' (clampIdx n (off.1 + cx)) (clampIdx n (off.2 + cy)) c)
    g

/-- The brush dispatch of the paint step (main.rs lines 197-226). -/
def applyBrush (g : Grid) (b : Brush) (cx cy : ℤ) (s n : ℕ) (c : Rgb8) : Grid :=
  match b with
  | Brush.Square => paintSquare g cx cy s n c
  | Brush.Circle => paintCircle g cx cy s n c

/-- The list of cell indices a brush application writes to, in write order. -/
def brushTargets (b : Brush) (cx cy : ℤ) (s n : ℕ) : List (ℕ × ℕ) :=
  match b with
  | Brush.Square =>
      (List.range' (sqLo cx s) (sqHi cx s n - sqLo cx s)).flatMap (fun x =>
        (List.range' (sqLo cy s) (sqHi cy s n - sqLo cy s)).map (fun y => (x, y)))
  | Brush.Circle =>
      (calc_circle_pixels s).map
        (fun off => (clampIdx n (off.1 + cx), clampIdx n (off.2 + cy)))

theorem foldl_set_eq_paintPoints_map (g : Grid) (a : ℕ) (ys : List ℕ) (c : Rgb8) :
    ys.foldl (fun g' y => setPixelColor g' a y c) g =
      paintPoints g (ys.map fun y => (a, y)) c := by
  rw [paintPoints, List.foldl_map]

theorem paintSquare_eq_paintPoints (g : Grid) (cx cy : ℤ) (s n : ℕ) (c : Rgb8) :
    paintSquare g cx cy s n c = paintPoints g (brushTargets Brush.Square cx cy s n) c := by
  rw [paintSquare, brushTargets]
  generalize List.range' (sqLo cx s) (sqHi cx s n - sqLo cx s) = xs
  generalize List.range' (sqLo cy s) (sqHi cy s n - sqLo cy s) = ys
  induction xs generalizing g with
  | nil => rfl
  | cons a as ih =>
    rw [List.foldl_cons, List.flatMap_cons, paintPoints, List.foldl_append,
      ← paintPoints, ← paintPoints, ih, foldl_set_eq_paintPoints_map]

theorem paintCircle_eq_paintPoints (g : Grid) (cx cy : ℤ) (s n : ℕ) (c : Rgb8) :
    paintCircle g cx cy s n c = paintPoints g (brushTargets Brush.Circle cx cy s n) c := by
  rw [paintCircle, brushTargets, paintPoints, List.foldl_map]

theorem applyBrush_eq_paintPoints (g : Grid) (b : Brush) (cx cy : ℤ) (s n : ℕ) (c : Rgb8) :
    applyBrush g b cx cy s n c = paintPoints g (brushTargets b cx cy s n) c := by
  cases b
  · exact paintCircle_eq_paintPoints g cx cy s n c
  · exact paintSquare_eq_paintPoints g cx cy s n c

/-! ## Arithmetic facts about the bounds -/

theorem floor_half_nat (s : ℕ) : ⌊(s : ℚ) / 2⌋ = (s / 2 : ℕ) := by
  rcases Nat.even_or_odd s with ⟨k, hk⟩ | ⟨k, hk⟩
  · subst hk
    have h1 : ((k + k : ℕ) : ℚ) / 2 = ((k : ℤ) : ℚ) := by push_cast; ring
    have h2 : (((k + k) / 2 : ℕ) : ℤ) = (k : ℤ) := by omega
    rw [h1, ← h2, Int.floor_intCast]
  · subst hk
    have h2 : ((2 * k + 1) / 2 : ℕ) = k := by omega
    rw [h2, Int.floor_eq_iff]
    constructor
    · push_cast
      linarith
    · push_cast
      linarith

theorem ceil_half_nat (s : ℕ) : ⌈(s : ℚ) / 2⌉ = ((s + 1) / 2 : ℕ) := by
  rcases Nat.even_or_odd s with ⟨k, hk⟩ | ⟨k, hk⟩
  · subst hk
    have h1 : ((k + k : ℕ) : ℚ) / 2 = ((k : ℤ) : ℚ) := by push_cast; ring
    have h2 : (((k + k + 1) / 2 : ℕ) : ℤ) = (k : ℤ) := by omega
    rw [h1, ← h2, Int.ceil_intCast]
  · subst hk
    have h2 : ((2 * k + 1 + 1) / 2 : ℕ) = k + 1 := by omega
    rw [h2, Int.ceil_eq_iff]
    constructor
    · push_cast
      linarith
    · push_cast
      linarith

theorem ceil_sub_half (c : ℤ) (s : ℕ) : ⌈(c : ℚ) - (s : ℚ) / 2⌉ = c - (s / 2 : ℕ) := by
  rw [sub_eq_add_neg, add_comm, Int.ceil_add_int, Int.ceil_neg, floor_half_nat]
  ring

theorem ceil_add_half (c : ℤ) (s : ℕ) : ⌈(c : ℚ) + (s : ℚ) / 2⌉ = c + ((s + 1) / 2 : ℕ) := by
  rw [add_comm, Int.ceil_add_int, ceil_half_nat]
  ring

theorem sqLo_eq (c : ℤ) (s : ℕ) : sqLo c s = (max (c - (s / 2 : ℕ)) 0).toNat := by
  rw [sqLo, ceil_sub_half]

theorem sqHi_eq (c : ℤ) (s n : ℕ) :
    sqHi c s n = (min (max (c + ((s + 1) / 2 : ℕ)) 0) (n : ℤ)).toNat := by
  rw [sqHi, ceil_half_nat]

theorem mem_range_lo_hi (lo hi x : ℕ) :
    x ∈ List.range' lo (hi - lo) ↔ lo ≤ x ∧ x < hi := by
  rw [List.mem_range'_1]
  omega

theorem mem_squareTargets (cx cy : ℤ) (s n : ℕ) (x y : ℕ) :
    (x, y) ∈ brushTargets Brush.Square cx cy s n ↔
      (sqLo cx s ≤ x ∧ x < sqHi cx s n) ∧ (sqLo cy s ≤ y ∧ y < sqHi cy s n) := by
  rw [brushTargets]
  simp only [List.mem_flatMap, List.mem_map, Prod.mk.injEq]
  constructor
  · rintro ⟨a, ha, b, hb, rfl, rfl⟩
    exact ⟨(mem_range_lo_hi _ _ _).mp ha, (mem_range_lo_hi _ _ _).mp hb⟩
  · rintro ⟨hx, hy⟩
    exact ⟨x, (mem_range_lo_hi _ _ _).mpr hx, y, (mem_range_lo_hi _ _ _).mpr hy, rfl, rfl⟩

theorem mem_rangeIncl (lo hi x : ℤ) : x ∈ rangeIncl lo hi ↔ lo ≤ x ∧ x ≤ hi := by
  rw [rangeIncl]
  simp only [List.mem_map, List.mem_range]
  constructor
  · rintro ⟨i, hi', rfl⟩
    omega
  · rintro ⟨h1, h2⟩
    exact ⟨(x - lo).toNat, by omega, by omega⟩

theorem mem_calc_circle_pixels (d : ℕ) (dx dy : ℤ) :
    (dx, dy) ∈ calc_circle_pixels d ↔
      (-(⌊(d : ℚ) / 2⌋) ≤ dx ∧ dx ≤ ⌊(d : ℚ) / 2⌋ ∧
       -(⌊(d : ℚ) / 2⌋) ≤ dy ∧ dy ≤ ⌊(d : ℚ) / 2⌋ ∧
       (dx : ℚ) * dx + (dy : ℚ) * dy ≤ ((d : ℚ) / 2) * ((d : ℚ) / 2)) := by
  rw [calc_circle_pixels]
  simp only [List.mem_flatMap, List.mem_map, List.mem_filter, mem_rangeIncl,
    Prod.mk.injEq, insideCircle, decide_eq_true_eq]
  constructor
  · rintro ⟨a, ha, b, ⟨hb, hle⟩, rfl, rfl⟩
    exact ⟨ha.1, ha.2, hb.1, hb.2, hle⟩
  · rintro ⟨h1, h2, h3, h4, h5⟩
    exact ⟨dx, ⟨h1, h2⟩, dy, ⟨⟨h3, h4⟩, h5⟩, rfl, rfl⟩

/-! ## Geometry mapper (main.rs lines 156-158 and 188-190) -/

/-- Cell edge length (main.rs line 158):
`win.w().min(win.h()) / grid_size as f32`. -/
def cellEdgeLength (w h : ℚ) (gridSize : ℕ) : ℚ :=
  min w h / gridSize

/-- Pointer-to-cell mapping for one axis (main.rs lines 188-190):
`(mouse / diff).floor() + h` where `h = (grid_size / 2) as f32`
(integer division, then cast to float; the sum is integer-valued). -/
def worldToCell (p edge : ℚ) (gridSize : ℕ) : ℤ :=
  ⌊p / edge⌋ + (gridSize / 2 : ℕ)

/-! ## Session state and the update tick (main.rs lines 46-71 and 156-227) -/

/-- The mutable drawing state (main.rs lines 46-53; the `should_exit` flag
only terminates the process and is not modelled). -/
structure State where
  pixels : Grid
  drawing : Bool
  erasing : Bool
  should_reset : Bool
  should_calc_positions : Bool
deriving DecidableEq

/-- The settings the core reads (main.rs lines 55-65; the UI-only fields
`display_fps`, `dark_mode` and the colour buffers are not modelled). -/
structure Settings where
  brush : Brush
  brush_size : ℕ
  grid_size : ℕ
  primary_color : Rgb8
  secondary_color : Rgb8
deriving DecidableEq

/-- A fresh all-default grid,
`vec![vec![Pixel::default(); grid_size]; grid_size]` (main.rs lines 164-165). -/
def resetGrid (n : ℕ) : Grid :=
  List.replicate n (List.replicate n Pixel.def)

/-- The canvas-reset block at the start of the update tick (main.rs lines
161-166).  A grid-size change from the settings slider only sets
`should_reset` (main.rs lines 292-294), so a resize is exactly this reset
performed with the new `grid_size` on the next tick. -/
def resetStep (settings : Settings) (st : State) : State :=
  if st.should_reset then
    { st with
        should_reset := false
        should_calc_positions := true
        pixels := resetGrid settings.grid_size }
  else st

/-- The painting block of the update tick (main.rs lines 187-227): while
drawing or erasing, resolve the pointer cell, pick the colour (primary when
drawing, otherwise secondary), and stamp the active brush. -/
def paintStep (settings : Settings) (st : State) (mouseX mouseY w h : ℚ) : State :=
  if st.drawing || st.erasing then
    let diff := cellEdgeLength w h settings.grid_size
    let pos_x := worldToCell mouseX diff settings.grid_size
    let pos_y := worldToCell mouseY diff settings.grid_size
    let color := if st.drawing then settings.primary_color else settings.secondary_color
    { st with
        pixels := applyBrush st.pixels settings.brush pos_x pos_y
          settings.brush_size settings.grid_size color }
  else st

/-! ## The square rectangle as claim C1 words it -/

/-- Lower bound of the claimed square-brush rectangle: the claim's
`ceil(c - s/2)`, clamped to the grid range. -/
def claimSqLo (c : ℤ) (s n : ℕ) : ℤ :=
  min (max (⌈(c : ℚ) - (s : ℚ) / 2⌉) 0) (n : ℤ)

/-- Upper (exclusive) bound of the claimed square-brush rectangle: the
claim's `ceil(c + s/2)`, clamped to the grid range. -/
def claimSqHi (c : ℤ) (s n : ℕ) : ℤ :=
  min (max (⌈(c : ℚ) + (s : ℚ) / 2⌉) 0) (n : ℤ)

/-- Membership of one axis value in the claimed rectangle. -/
def claimSqMem (c : ℤ) (s n : ℕ) (x : ℕ) : Prop :=
  claimSqLo c s n ≤ (x : ℤ) ∧ (x : ℤ) < claimSqHi c s n

instance (c : ℤ) (s n x : ℕ) : Decidable (claimSqMem c s n x) := by
  rw [claimSqMem]
  infer_instance

/-- The half-open index interval the code's square loop visits on one axis
coincides with the claim's independently clamped rectangle bounds. -/
theorem sq_range_iff_claim (c : ℤ) (s n : ℕ) (x : ℕ) :
    (sqLo c s ≤ x ∧ x < sqHi c s n) ↔ claimSqMem c s n x := by
  rw [claimSqMem, claimSqLo, claimSqHi, sqLo_eq, sqHi_eq, ceil_sub_half, ceil_add_half]
  omega

/-! ## Render compaction (main.rs lines 362-383) -/

/-- Length of the run of consecutive cells equal to colour `c` at the head
of the rest of the column: the inner `for y_2 in y..pixels.len()` loop with
its `break` (main.rs lines 370-376), counting in `amt`. -/
def takeRun (c : Rgb8) : List Rgb8 → ℕ
  | [] => 0
  | a :: rest => if a = c then takeRun c rest + 1 else 0

/-- The per-column scan of the render pass (main.rs lines 363-382).  `fuel`
is the number of rows the `for (y, pixel)` loop still has to visit, `y` the
current row, `amt` the mutable run counter carried across iterations; a row
with `y < amt` is skipped (main.rs lines 365-367).  Emits one
`(start_row, run_length)` pair per drawn rectangle; the drawn rect has height
`run_length * edge` and is vertically centred over the run (lines 378-381). -/
def scanColAux (col : List Rgb8) : ℕ → ℕ → ℕ → List (ℕ × ℕ)
  | 0, _, _ => []
  | fuel + 1, y, amt =>
    if y < amt then scanColAux col fuel (y + 1) amt
    else
      (y, takeRun (col.getD y BLACK) (col.drop y)) ::
        scanColAux col fuel (y + 1) (takeRun (col.getD y BLACK) (col.drop y))

/-- Scan one whole column of `grid_size` rows (main.rs lines 362-383; the
inner scan bound `pixels.len()` equals the column length for the square
grids the program builds). -/
def scanCol (col : List Rgb8) : List (ℕ × ℕ) :=
  scanColAux col col.length 0 0

/-- Number of emitted rectangles of a column that cover row `y`. -/
def coverCount (rects : List (ℕ × ℕ)) (y : ℕ) : ℕ :=
  (rects.filter (fun r => decide (r.1 ≤ y ∧ y < r.1 + r.2))).length

/-! ## Integer-arithmetic forms of the float computations

The rational arithmetic in the embedded float expressions does not reduce
inside the kernel, so concrete evaluations go through these equalities,
proved once, that restate the bounds in pure integer arithmetic. -/

theorem insideCircle_int (d : ℕ) (x y : ℤ) :
    insideCircle ((d : ℚ) / 2) x y = decide (4 * (x * x + y * y) ≤ (d : ℤ) * d) := by
  rw [insideCircle, decide_eq_decide]
  have h4 : ((d : ℚ) / 2) * ((d : ℚ) / 2) = ((d : ℚ) * d) / 4 := by ring
  rw [h4, le_div_iff₀ (by norm_num)]
  have hcast : ((x : ℚ) * x + (y : ℚ) * y) * 4 ≤ (d : ℚ) * d ↔
      ((x * x + y * y) * 4 : ℤ) ≤ (d : ℤ) * d := by
    constructor
    · intro h
      exact_mod_cast h
    · intro h
      exact_mod_cast h
  rw [hcast]
  constructor
  · intro h
    linarith
  · intro h
    linarith

theorem calc_circle_pixels_int (d : ℕ) :
    calc_circle_pixels d =
      (rangeIncl (-((d / 2 : ℕ) : ℤ)) ((d / 2 : ℕ) : ℤ)).flatMap (fun x =>
        ((rangeIncl (-((d / 2 : ℕ) : ℤ)) ((d / 2 : ℕ) : ℤ)).filter (fun y =>
          decide (4 * (x * x + y * y) ≤ (d : ℤ) * d))).map (fun y => (x, y))) := by
  simp only [calc_circle_pixels, floor_half_nat, insideCircle_int]

theorem sqHi_le (c : ℤ) (s n : ℕ) : sqHi c s n ≤ n := by
  rw [sqHi]
  generalize (⌈(s : ℚ) / 2⌉ : ℤ) = t
  omega

theorem clampIdx_lt (n : ℕ) (v : ℤ) (hn : 1 ≤ n) : clampIdx n v < n := by
  rw [clampIdx]
  omega

/-- The state a serviced paint tick produces: the prior state with the active
brush stamped onto the pixel store at the pointer cell, in colour `c`. -/
def paintedState (settings : Settings) (st : State) (c : Rgb8) (mx my w h : ℚ) : State :=
  { st with
      pixels :=
        applyBrush st.pixels settings.brush
          (worldToCell mx (cellEdgeLength w h settings.grid_size) settings.grid_size)
          (worldToCell my (cellEdgeLength w h settings.grid_size) settings.grid_size)
          settings.brush_size settings.grid_size c }

/-! ## Claims -/

/-- Claim C1: for every brush size s ≥ 1, grid size n in 1..64 and integer
centre cell (cx, cy), painting with the square brush sets exactly the cells
of the rectangle with bounds ceil(c - s/2) and ceil(c + s/2) per axis, each
bound independently clamped to the grid range, to the active colour; every
other cell's colour is unchanged. -/
theorem square_brush_paints_claimed_rectangle
    (s n : ℕ) (cx cy : ℤ) (g : Grid) (c : Rgb8)
    (hs : 1 ≤ s) (hn1 : 1 ≤ n) (hn64 : n ≤ 64)
    (hlen : g.length = n) (hrow : ∀ row ∈ g, row.length = n)
    (x : ℕ) (hx : x < n) (y : ℕ) (hy : y < n) :
    (getPixel (paintSquare g cx cy s n c) x y).color =
      if claimSqMem cx s n x ∧ claimSqMem cy s n y then c
      else (getPixel g x y).color := by
  have hrowlen : (g.getD x []).length = n := by
    rw [List.getD_eq_getElem g [] (by omega)]
    exact hrow _ (List.getElem_mem _)
  have hmem : ((x, y) ∈ brushTargets Brush.Square cx cy s n) ↔
      (claimSqMem cx s n x ∧ claimSqMem cy s n y) := by
    rw [mem_squareTargets, sq_range_iff_claim, sq_range_iff_claim]
  rw [paintSquare_eq_paintPoints, getPixel_paintPoints]
  by_cases hc : claimSqMem cx s n x ∧ claimSqMem cy s n y
  · rw [if_pos ⟨hmem.mpr hc, by omega, by omega⟩, if_pos hc]
  · rw [if_neg ?_, if_neg hc]
    rintro ⟨hm, -, -⟩
    exact hc (hmem.mp hm)

/-- Witness for C1 at s = 1, n = 2, centre (0, 0), reading cell (0, 0) of a
fresh grid. -/
theorem square_brush_paints_claimed_rectangle_witness :
    (1 ≤ 1 ∧ 1 ≤ 2 ∧ 2 ≤ 64 ∧ (resetGrid 2).length = 2 ∧
     (∀ row ∈ resetGrid 2, row.length = 2) ∧ 0 < 2 ∧ 0 < 2) ∧
    (getPixel (paintSquare (resetGrid 2) 0 0 1 2 WHITE) 0 0).color =
      (if claimSqMem 0 1 2 0 ∧ claimSqMem 0 1 2 0 then WHITE
       else (getPixel (resetGrid 2) 0 0).color) :=
  ⟨⟨by decide, by decide, by decide, by decide, by decide, by decide, by decide⟩,
    square_brush_paints_claimed_rectangle 1 2 0 0 (resetGrid 2) WHITE
      (by decide) (by decide) (by decide) (by decide) (by decide)
      0 (by decide) 0 (by decide)⟩

/-- Claim C2 counterexample: with the square brush of size 2 centred at cell
(5, 5) on a 16-grid, cell (6, 6) - which the claim says is painted - keeps
the default colour, while cell (4, 4) - which the claim says is untouched -
receives the active colour.  The even-size rectangle extends one cell toward
smaller indices, not larger ones. -/
theorem square_brush_size_two_counterexample :
    (getPixel (paintSquare (resetGrid 16) 5 5 2 16 WHITE) 6 6).color = BLACK ∧
    (getPixel (paintSquare (resetGrid 16) 5 5 2 16 WHITE) 4 4).color = WHITE ∧
    BLACK ≠ WHITE := by
  have h1 : sqLo 5 2 = 4 := by
    rw [sqLo_eq]
    decide
  have h2 : sqHi 5 2 16 = 6 := by
    rw [sqHi_eq]
    decide
  refine ⟨?_, ?_, by decide⟩ <;> simp only [paintSquare, h1, h2] <;> decide

/-- Claim C2 as amended: painting with the square brush of size 2 centred at
cell (5, 5) on a 16-grid sets exactly the four cells
(4,4), (4,5), (5,4), (5,5) and no others. -/
theorem square_brush_size_two_amended :
    ∀ x : ℕ, x < 16 → ∀ y : ℕ, y < 16 →
      (getPixel (paintSquare (resetGrid 16) 5 5 2 16 WHITE) x y).color =
        (if (4 ≤ x ∧ x ≤ 5) ∧ (4 ≤ y ∧ y ≤ 5) then WHITE else BLACK) := by
  have h1 : sqLo 5 2 = 4 := by
    rw [sqLo_eq]
    decide
  have h2 : sqHi 5 2 16 = 6 := by
    rw [sqHi_eq]
    decide
  simp only [paintSquare, h1, h2]
  decide

/-- Witness for the amended C2 at the painted cell (4, 4). -/
theorem square_brush_size_two_amended_witness :
    (4 < 16 ∧ 4 < 16) ∧
    (getPixel (paintSquare (resetGrid 16) 5 5 2 16 WHITE) 4 4).color =
      (if (4 ≤ 4 ∧ 4 ≤ 5) ∧ (4 ≤ 4 ∧ 4 ≤ 5) then WHITE else BLACK) :=
  ⟨⟨by decide, by decide⟩, square_brush_size_two_amended 4 (by decide) 4 (by decide)⟩

/-- Claim C3: for every diameter d ≥ 1 the circle-brush offset list holds
exactly the integer pairs (dx, dy) with both coordinates in [-r, r] for
r = floor(d/2) (the floor of the float radius d/2) that satisfy
dx² + dy² ≤ (d/2)² with the untruncated rational radius; in particular for
d = 4 the set contains (2,0) and (0,2) and misses (2,2). -/
theorem circle_offsets_characterization (d : ℕ) (hd : 1 ≤ d) (dx dy : ℤ) :
    ((dx, dy) ∈ calc_circle_pixels d ↔
      (-(((d / 2 : ℕ) : ℤ)) ≤ dx ∧ dx ≤ ((d / 2 : ℕ) : ℤ) ∧
       -(((d / 2 : ℕ) : ℤ)) ≤ dy ∧ dy ≤ ((d / 2 : ℕ) : ℤ) ∧
       (dx : ℚ) * dx + (dy : ℚ) * dy ≤ ((d : ℚ) / 2) * ((d : ℚ) / 2))) ∧
    ⌊(d : ℚ) / 2⌋ = ((d / 2 : ℕ) : ℤ) ∧
    ((2, 0) ∈ calc_circle_pixels 4 ∧ (0, 2) ∈ calc_circle_pixels 4 ∧
     (2, 2) ∉ calc_circle_pixels 4) := by
  refine ⟨?_, floor_half_nat d, ?_, ?_, ?_⟩
  · rw [mem_calc_circle_pixels, floor_half_nat]
  · rw [calc_circle_pixels_int]
    decide
  · rw [calc_circle_pixels_int]
    decide
  · rw [calc_circle_pixels_int]
    decide

/-- Witness for C3 at d = 4, offset (2, 0). -/
theorem circle_offsets_characterization_witness :
    (1 ≤ 4) ∧
    ((((2, 0) : ℤ × ℤ) ∈ calc_circle_pixels 4 ↔
       (-(((4 / 2 : ℕ) : ℤ)) ≤ 2 ∧ 2 ≤ ((4 / 2 : ℕ) : ℤ) ∧
        -(((4 / 2 : ℕ) : ℤ)) ≤ 0 ∧ 0 ≤ ((4 / 2 : ℕ) : ℤ) ∧
        ((2 : ℤ) : ℚ) * 2 + ((0 : ℤ) : ℚ) * 0 ≤ ((4 : ℚ) / 2) * ((4 : ℚ) / 2))) ∧
     ⌊(4 : ℚ) / 2⌋ = ((4 / 2 : ℕ) : ℤ) ∧
     ((2, 0) ∈ calc_circle_pixels 4 ∧ (0, 2) ∈ calc_circle_pixels 4 ∧
      (2, 2) ∉ calc_circle_pixels 4)) :=
  ⟨by decide, circle_offsets_characterization 4 (by decide) 2 0⟩

/-- Claim C4 evaluation at the failing input: a four-row column coloured
[white, black, black, black] makes the render scan emit the rectangles
(0,1), (1,3) and (3,1), so row 3 is covered by two emitted rectangles - the
skip test `y < amt` compares the row index with the last run length instead
of the covered-up-to row, and fails to skip covered rows whose run did not
start at the top of the column. -/
theorem render_compaction_overlapping_cover :
    scanCol [WHITE, BLACK, BLACK, BLACK] = [(0, 1), (1, 3), (3, 1)] ∧
    coverCount (scanCol [WHITE, BLACK, BLACK, BLACK]) 3 = 2 := by
  decide

/-- Claim C5: a column with colours [A, A, B, A] (A ≠ B) compacts to exactly
three rectangles, of heights 2, 1 and 1 rows, starting at rows 0, 2 and 3:
each run is the maximal same-colour run from its first unvisited row. -/
theorem compaction_column_heights_two_one_one (A B : Rgb8) (hAB : A ≠ B) :
    scanCol [A, A, B, A] = [(0, 2), (2, 1), (3, 1)] := by
  simp [scanCol, scanColAux, takeRun, List.getD, hAB, Ne.symm hAB]

/-- Witness for C5 with A = white, B = black. -/
theorem compaction_column_heights_two_one_one_witness :
    WHITE ≠ BLACK ∧
    scanCol [WHITE, WHITE, BLACK, WHITE] = [(0, 2), (2, 1), (3, 1)] :=
  ⟨by decide, compaction_column_heights_two_one_one WHITE BLACK (by decide)⟩

/-- Claim C6 counterexample: on a 4-grid, the square brush of size 1 centred
at the pointer-derived off-grid cell (4, 0) paints nothing at all, although
the per-axis clamp of the out-of-range target column 4 is the valid edge
index 3 - the square brush clamps its range bounds and so drops a fully
out-of-range rectangle instead of clamping each target index to the edge. -/
theorem square_clamping_counterexample :
    brushTargets Brush.Square 4 0 1 4 = [] ∧ clampIdx 4 4 = 3 := by
  constructor
  · have h1 : sqLo 4 1 = 4 := by
      rw [sqLo_eq]
      decide
    have h2 : sqHi 4 1 4 = 4 := by
      rw [sqHi_eq]
      decide
    simp only [brushTargets, h1, h2]
    decide
  · decide

/-- Claim C6 as amended: every cell index either brush paints lies inside
[0, gridSize) on both axes (painting never indexes out of bounds and, the
indices being naturals produced by clamping against 0, never goes negative);
the circle brush clamps each target index per axis to the nearest valid edge
index; and the square brush centred at (0, 0) with size 3 paints exactly the
cells with both indices at most 1 - its range-bound clamping agrees with
per-index clamping whenever the brush rectangle meets the grid on each axis,
though (see the counterexample) it paints nothing when the rectangle lies
entirely outside the grid on some axis. -/
theorem paint_targets_in_bounds_amended :
    (∀ (b : Brush) (cx cy : ℤ) (s n : ℕ), 1 ≤ n →
       ∀ pt ∈ brushTargets b cx cy s n, pt.1 < n ∧ pt.2 < n) ∧
    (∀ (n : ℕ) (v : ℤ), 1 ≤ n →
       (v < 0 → clampIdx n v = 0) ∧
       ((n : ℤ) ≤ v → clampIdx n v = n - 1) ∧
       (0 ≤ v → v < (n : ℤ) → (clampIdx n v : ℤ) = v)) ∧
    (∀ n : ℕ, 2 ≤ n → ∀ x y : ℕ,
       ((x, y) ∈ brushTargets Brush.Square 0 0 3 n ↔ x ≤ 1 ∧ y ≤ 1)) := by
  refine ⟨?_, ?_, ?_⟩
  · intro b cx cy s n hn pt hpt
    cases b with
    | Square =>
      obtain ⟨px, py⟩ := pt
      rw [mem_squareTargets] at hpt
      have h1 := sqHi_le cx s n
      have h2 := sqHi_le cy s n
      exact ⟨by omega, by omega⟩
    | Circle =>
      rw [brushTargets] at hpt
      obtain ⟨off, -, rfl⟩ := List.mem_map.mp hpt
      exact ⟨clampIdx_lt n _ hn, clampIdx_lt n _ hn⟩
  · intro n v hn
    refine ⟨?_, ?_, ?_⟩
    · intro hv
      rw [clampIdx]
      omega
    · intro hv
      rw [clampIdx]
      omega
    · intro hv1 hv2
      rw [clampIdx]
      omega
  · intro n hn x y
    have h1 : sqLo 0 3 = 0 := by
      rw [sqLo_eq]
      decide
    have h2 : sqHi 0 3 n = 2 := by
      rw [sqHi_eq]
      omega
    rw [mem_squareTargets, h1, h2]
    omega

/-- Witness for the amended C6: the clamp behaviour at n = 4, v = -3. -/
theorem paint_targets_in_bounds_amended_witness :
    (1 ≤ 4) ∧
    (((-3 : ℤ) < 0 → clampIdx 4 (-3) = 0) ∧
     (((4 : ℕ) : ℤ) ≤ -3 → clampIdx 4 (-3) = 4 - 1) ∧
     (0 ≤ (-3 : ℤ) → (-3 : ℤ) < ((4 : ℕ) : ℤ) → (clampIdx 4 (-3) : ℤ) = -3)) :=
  ⟨by decide, paint_targets_in_bounds_amended.2.1 4 (-3) (by decide)⟩

/-- Claim C7: for every grid size n in 1..64, a tick whose reset flag is set
- as raised by the reset button, the R key, or any grid-size slider change,
after arbitrary painting - replaces the pixel store by exactly n × n cells,
all of the default (background) colour, whatever the prior contents were;
a resize is this same reset with the new size. -/
theorem reset_yields_default_grid (settings : Settings) (st : State)
    (hn1 : 1 ≤ settings.grid_size) (hn64 : settings.grid_size ≤ 64)
    (hr : st.should_reset = true) :
    ((resetStep settings st).pixels).length = settings.grid_size ∧
    (∀ row ∈ (resetStep settings st).pixels, row.length = settings.grid_size) ∧
    (∀ row ∈ (resetStep settings st).pixels, ∀ p ∈ row, p.color = BLACK) ∧
    ((resetStep settings st).pixels).flatten.length =
      settings.grid_size * settings.grid_size := by
  simp only [resetStep, hr, if_true]
  refine ⟨?_, ?_, ?_, ?_⟩
  · simp [resetGrid]
  · intro row hrow
    rw [List.eq_of_mem_replicate hrow]
    simp
  · intro row hrow p hp
    rw [List.eq_of_mem_replicate hrow] at hp
    rw [List.eq_of_mem_replicate hp]
    rfl
  · rw [resetGrid, List.length_flatten, List.map_replicate, List.sum_replicate]
    simp [smul_eq_mul]

/-- Witness for C7: a painted 1-cell store reset to grid size 3. -/
theorem reset_yields_default_grid_witness :
    (1 ≤ (Settings.mk Brush.Square 1 3 WHITE BLACK).grid_size ∧
     (Settings.mk Brush.Square 1 3 WHITE BLACK).grid_size ≤ 64 ∧
     (State.mk [[Pixel.mk WHITE 0 0]] false false true false).should_reset = true) ∧
    (((resetStep (Settings.mk Brush.Square 1 3 WHITE BLACK)
        (State.mk [[Pixel.mk WHITE 0 0]] false false true false)).pixels).length =
      (Settings.mk Brush.Square 1 3 WHITE BLACK).grid_size ∧
     (∀ row ∈ (resetStep (Settings.mk Brush.Square 1 3 WHITE BLACK)
        (State.mk [[Pixel.mk WHITE 0 0]] false false true false)).pixels,
        row.length = (Settings.mk Brush.Square 1 3 WHITE BLACK).grid_size) ∧
     (∀ row ∈ (resetStep (Settings.mk Brush.Square 1 3 WHITE BLACK)
        (State.mk [[Pixel.mk WHITE 0 0]] false false true false)).pixels,
        ∀ p ∈ row, p.color = BLACK) ∧
     ((resetStep (Settings.mk Brush.Square 1 3 WHITE BLACK)
        (State.mk [[Pixel.mk WHITE 0 0]] false false true false)).pixels).flatten.length =
      (Settings.mk Brush.Square 1 3 WHITE BLACK).grid_size *
        (Settings.mk Brush.Square 1 3 WHITE BLACK).grid_size) :=
  ⟨⟨by decide, by decide, rfl⟩,
    reset_yields_default_grid (Settings.mk Brush.Square 1 3 WHITE BLACK)
      (State.mk [[Pixel.mk WHITE 0 0]] false false true false)
      (by decide) (by decide) rfl⟩

/-- Claim C8: the geometry mapper computes the cell edge length as
min(viewportWidth, viewportHeight) / gridSize, and maps a pointer coordinate
to a cell index as floor(pointer / edgeLength) + gridSize/2 (with the
integer-division half the code computes), applying no clamping in the
mapping itself: pointer positions left of / below the grid map to negative
indices and far ones map past the grid, as the two instances show. -/
theorem geometry_mapper_formulas :
    (∀ (w h : ℚ) (n : ℕ), cellEdgeLength w h n = min w h / n) ∧
    (∀ (p e : ℚ) (n : ℕ), worldToCell p e n = ⌊p / e⌋ + ((n / 2 : ℕ) : ℤ)) ∧
    worldToCell (-100) 1 16 = -92 ∧
    worldToCell 100 1 16 = 108 := by
  refine ⟨fun w h n => rfl, fun p e n => rfl, ?_, ?_⟩ <;> norm_num [worldToCell]

/-- Claim C9: on a serviced tick the painting flag selects the primary
colour; with only the erasing flag set the secondary colour is used; and
when both flags are set painting takes precedence and the primary colour is
applied to the targeted cells. -/
theorem tick_color_selection (settings : Settings) (st : State) (mx my w h : ℚ) :
    (st.drawing = true →
       paintStep settings st mx my w h =
         paintedState settings st settings.primary_color mx my w h) ∧
    (st.drawing = false → st.erasing = true →
       paintStep settings st mx my w h =
         paintedState settings st settings.secondary_color mx my w h) ∧
    (st.drawing = true → st.erasing = true →
       paintStep settings st mx my w h =
         paintedState settings st settings.primary_color mx my w h) := by
  refine ⟨?_, ?_, ?_⟩
  · intro h1
    simp [paintStep, paintedState, h1]
  · intro h1 h2
    simp [paintStep, paintedState, h1, h2]
  · intro h1 h2
    simp [paintStep, paintedState, h1]

/-- Witness for C9: a drawing tick paints with the primary colour. -/
theorem tick_color_selection_witness :
    ((State.mk (resetGrid 2) true false false false).drawing = true) ∧
    paintStep (Settings.mk Brush.Square 1 2 WHITE BLACK)
        (State.mk (resetGrid 2) true false false false) 0 0 2 2 =
      paintedState (Settings.mk Brush.Square 1 2 WHITE BLACK)
        (State.mk (resetGrid 2) true false false false) WHITE 0 0 2 2 :=
  ⟨rfl,
    (tick_color_selection (Settings.mk Brush.Square 1 2 WHITE BLACK)
      (State.mk (resetGrid 2) true false false false) 0 0 2 2).1 rfl⟩

/-- Claim C10: a paint step of either brush only recolours its target cells:
the grid keeps its outer and all inner lengths, every cell keeps its stored
world position, and every non-targeted cell keeps its colour. -/
theorem paint_frame_effect (b : Brush) (g : Grid) (cx cy : ℤ) (s n : ℕ) (c : Rgb8) :
    (applyBrush g b cx cy s n c).length = g.length ∧
    (∀ i, ((applyBrush g b cx cy s n c).getD i []).length = (g.getD i []).length) ∧
    (∀ x y, (getPixel (applyBrush g b cx cy s n c) x y).x = (getPixel g x y).x ∧
            (getPixel (applyBrush g b cx cy s n c) x y).y = (getPixel g x y).y) ∧
    (∀ x y, (x, y) ∉ brushTargets b cx cy s n →
       (getPixel (applyBrush g b cx cy s n c) x y).color = (getPixel g x y).color) := by
  rw [applyBrush_eq_paintPoints]
  refine ⟨paintPoints_length g _ c, fun i => paintPoints_row_length g _ c i,
    fun x y => getPixel_paintPoints_pos _ g c x y, fun x y hmem => ?_⟩
  rw [getPixel_paintPoints, if_neg (by tauto)]

/-- Witness for C10: the cell (0, 0), untargeted by a size-1 square stamp at
(2, 2), keeps its colour. -/
theorem paint_frame_effect_witness :
    ((0, 0) ∉ brushTargets Brush.Square 2 2 1 4) ∧
    (getPixel (applyBrush (resetGrid 4) Brush.Square 2 2 1 4 WHITE) 0 0).color =
      (getPixel (resetGrid 4) 0 0).color := by
  have hlo : sqLo 2 1 = 2 := by
    rw [sqLo_eq]
    decide
  have hhi : sqHi 2 1 4 = 3 := by
    rw [sqHi_eq]
    decide
  have hmem : (0, 0) ∉ brushTargets Brush.Square 2 2 1 4 := by
    simp only [brushTargets, hlo, hhi]
    decide
  exact ⟨hmem,
    (paint_frame_effect Brush.Square (resetGrid 4) 2 2 1 4 WHITE).2.2.2 0 0 hmem⟩

end ApDrawing
